import Mathlib

/-!
Verification of a minimal HTTP/1.x server written over a raw byte stream.

The development shallowly embeds the server's data model and operations:
bytes are natural numbers (the source manipulates latin1 bytes, where
bytes 0..255 and characters correspond one to one), buffers are lists of
bytes, JavaScript `Buffer` mutation is rendered as explicit state passing,
promises/exceptions as `Except`, and the event-driven connection as a list
of incoming chunks. Unbounded `while` loops are rendered with an explicit
fuel parameter; theorems quantify over (or supply sufficient) fuel.
-/

namespace HttpWeb

/-- Latin1 bytes of a string literal (all literals used are ASCII). -/
def strBytes (s : String) : List Nat := s.toList.map Char.toNat

/-! ## Growable byte buffer (`DynBuf`, `bufPush`, `bufPop`)

The source keeps a `Buffer` (fixed storage) plus an occupied length.
`overwrite dst off src` models JavaScript's `src.copy(dst, off)` /
`copyWithin`: it writes `src` over `dst` starting at `off`, clamped to
`dst`'s extent, never changing `dst`'s length. -/

structure DynBuf where
  data : List Nat
  length : Nat
deriving DecidableEq, Repr

def overwrite (dst : List Nat) (off : Nat) (src : List Nat) : List Nat :=
  dst.take off ++ src.take (dst.length - off) ++ dst.drop (off + src.length)

/-- The capacity-doubling loop `while (cap < newLen) cap *= 2`.  The loop is
given fuel `newLen`, which always suffices when `1 ≤ cap` (the source always
starts from `cap ≥ 32`). -/
def growCapAux : Nat → Nat → Nat → Nat
  | 0, cap, _ => cap
  | fuel + 1, cap, newLen => if cap < newLen then growCapAux fuel (cap * 2) newLen else cap

def growCap (cap newLen : Nat) : Nat := growCapAux newLen cap newLen

def bufPush (buf : DynBuf) (d : List Nat) : DynBuf :=
  let newLen := buf.length + d.length
  let storage :=
    if buf.data.length < newLen then
      overwrite (List.replicate (growCap (max buf.data.length 32) newLen) 0) 0
        (buf.data.take buf.length)
    else buf.data
  { data := overwrite storage buf.length d, length := newLen }

/-- `copyWithin(0, len, buf.length)` then `length -= len`.  The source is only
ever called with `len ≤ buf.length` (Nat subtraction is exact there). -/
def bufPop (buf : DynBuf) (len : Nat) : DynBuf :=
  { data := overwrite buf.data 0 ((buf.data.take buf.length).drop len)
    length := buf.length - len }

/-- The occupied prefix `[0, length)` of the buffer. -/
def bufContents (buf : DynBuf) : List Nat := buf.data.take buf.length

/-- The buffer's structural invariant: occupied length within storage. -/
def bufInv (buf : DynBuf) : Prop := buf.length ≤ buf.data.length

def emptyBuf : DynBuf := { data := [], length := 0 }

/-! ### Buffer operation sequences (for the append/consume invariant) -/

inductive BufOp where
  | push (d : List Nat)
  | pop (n : Nat)
deriving DecidableEq, Repr

def runOps : List BufOp → DynBuf → DynBuf
  | [], buf => buf
  | .push d :: rest, buf => runOps rest (bufPush buf d)
  | .pop n :: rest, buf => runOps rest (bufPop buf n)

/-- The abstract contents after a sequence of operations: append concatenates,
consume drops from the front. -/
def modelOps : List BufOp → List Nat → List Nat
  | [], m => m
  | .push d :: rest, m => modelOps rest (m ++ d)
  | .pop n :: rest, m => modelOps rest (m.drop n)

/-- Every consume takes at most the current occupied length. -/
def validOps : List BufOp → DynBuf → Bool
  | [], _ => true
  | .push d :: rest, buf => validOps rest (bufPush buf d)
  | .pop n :: rest, buf => decide (n ≤ buf.length) && validOps rest (bufPop buf n)

/-! ## HTTP message framing

`findCRLF2` is `Buffer.indexOf("\r\n\r\n")`: the first index at which the
four-byte terminator matches, or `none`.  `splitLines` is
`data.toString("latin1").split("\r\n")` and `splitByte` is JavaScript
`String.split` with a one-character separator. -/

def kMaxHeaderLen : Nat := 8 * 1024

structure HTTPError where
  code : Nat
  message : String
deriving DecidableEq, Repr

structure HTTPReq where
  method : List Nat
  uri : List Nat
  version : List Nat
  headers : List (List Nat)
deriving DecidableEq, Repr

def crlfcrlf : List Nat := [13, 10, 13, 10]

def findCRLF2 : List Nat → Option Nat
  | [] => none
  | x :: xs =>
    if crlfcrlf.isPrefixOf (x :: xs) then some 0
    else (findCRLF2 xs).map (· + 1)

/-- Prepend a byte onto the first segment of a split result. -/
def consHead (x : Nat) : List (List Nat) → List (List Nat)
  | [] => [[x]]
  | h :: t => (x :: h) :: t

def splitLines : List Nat → List (List Nat)
  | [] => [[]]
  | [x] => [[x]]
  | x :: y :: rest =>
    if x = 13 ∧ y = 10 then [] :: splitLines rest
    else consHead x (splitLines (y :: rest))

def splitByte (sep : Nat) : List Nat → List (List Nat)
  | [] => [[]]
  | x :: xs => if x = sep then [] :: splitByte sep xs else consHead x (splitByte sep xs)

def kHTTPSlash : List Nat := strBytes "HTTP/"

def parseRequestLine (line : List Nat) : Except HTTPError (List Nat × List Nat × List Nat) :=
  match splitByte 32 line with
  | [method, rawUri, protocol] =>
    if kHTTPSlash.isPrefixOf protocol then
      -- protocol.split("/", 2)[1]: the segment between the first and second slash
      let version := (splitByte 47 protocol).getD 1 []
      if version.length = 0 then .error ⟨400, "Bad version"⟩
      else .ok (method, rawUri, version)
    else .error ⟨400, "Bad version"⟩
  | _ => .error ⟨400, "Bad request line"⟩

def validateHeader (h : List Nat) : Bool :=
  h.length = 0 || h.contains 58

/-- The header-collecting loop over `lines.slice(1, -1)`. -/
def collectHeaders : List (List Nat) → Except HTTPError (List (List Nat))
  | [] => .ok []
  | h :: rest =>
    if h.length = 0 then collectHeaders rest
    else if validateHeader h then
      match collectHeaders rest with
      | .error e => .error e
      | .ok t => .ok (h :: t)
    else .error ⟨400, "Invalid header field"⟩

def parseHTTPReq (data : List Nat) : Except HTTPError HTTPReq :=
  let lines := splitLines data
  let requestLine := lines.getD 0 []
  if requestLine.length = 0 then .error ⟨400, "Missing request line"⟩
  else
    match parseRequestLine requestLine with
    | .error e => .error e
    | .ok (method, uri, version) =>
      match collectHeaders ((lines.drop 1).dropLast) with
      | .error e => .error e
      | .ok headers => .ok ⟨method, uri, version, headers⟩

/-- The framer.  Returns the parsed request (if a complete header block is
buffered) together with the buffer after consuming it; the source mutates
`buf` in place. -/
def cutMessage (buf : DynBuf) : Except HTTPError (Option HTTPReq × DynBuf) :=
  match findCRLF2 (bufContents buf) with
  | none =>
    if kMaxHeaderLen ≤ buf.length then .error ⟨413, "Header too large"⟩
    else .ok (none, buf)
  | some idx =>
    match parseHTTPReq ((bufContents buf).take (idx + 4)) with
    | .error e => .error e
    | .ok msg => .ok (some msg, bufPop buf (idx + 4))

/-- The four-byte terminator matches at offset `j` of `l`. -/
def matchAt (l : List Nat) (j : Nat) : Prop := crlfcrlf <+: l.drop j

/-! ### Incremental versus whole-input framing (chunk feeding) -/

/-- Append chunks one at a time, calling the framer after each append, and
stop at the first extracted request. -/
def feedChunks : List (List Nat) → DynBuf → Except HTTPError (Option HTTPReq)
  | [], _ => .ok none
  | c :: cs, buf =>
    match cutMessage (bufPush buf c) with
    | .error e => .error e
    | .ok (some msg, _) => .ok (some msg)
    | .ok (none, buf1) => feedChunks cs buf1

/-- Append the whole input at once and call the framer once. -/
def cutWhole (data : List Nat) : Except HTTPError (Option HTTPReq) :=
  match cutMessage (bufPush emptyBuf data) with
  | .error e => .error e
  | .ok (m, _) => .ok m

/-- A complete header block whose terminator ends just past the maximum
header size: 8193 bytes with the terminator at index 8189. -/
def cexData : List Nat :=
  strBytes "GET /" ++ List.replicate 8175 97 ++ strBytes " HTTP/1.1" ++ [13, 10, 13, 10]

def cexChunk1 : List Nat := cexData.take 8192

def cexChunk2 : List Nat := cexData.drop 8192

/-- A buffer holding `kMaxHeaderLen` bytes with no terminator. -/
def bigBuf413 : DynBuf := ⟨List.replicate kMaxHeaderLen 97, kMaxHeaderLen⟩

/-- The request parsed from `cexData` when fed whole. -/
def cexReq : HTTPReq :=
  ⟨strBytes "GET", 47 :: List.replicate 8175 97, strBytes "1.1", []⟩

/-! ## Header lookup and body readers -/

/-- `String.toLowerCase` restricted to latin1 code points. -/
def toLowerJS (b : Nat) : Nat :=
  if (65 ≤ b ∧ b ≤ 90) ∨ (192 ≤ b ∧ b ≤ 222 ∧ b ≠ 215) then b + 32 else b

/-- The latin1 code points `String.trim` removes. -/
def isJSWhitespace (b : Nat) : Bool :=
  b = 9 || b = 10 || b = 11 || b = 12 || b = 13 || b = 32 || b = 160

def trimJS (l : List Nat) : List Nat :=
  ((l.dropWhile isJSWhitespace).reverse.dropWhile isJSWhitespace).reverse

def fieldGet (headers : List (List Nat)) (key : List Nat) : Option (List Nat) :=
  let lowerKey := key.map toLowerJS
  go headers lowerKey
where
  go : List (List Nat) → List Nat → Option (List Nat)
  | [], _ => none
  | h :: rest, lowerKey =>
    match h.findIdx? (fun b => b = 58) with
    | none => go rest lowerKey
    | some idx =>
      let name := trimJS (h.take idx)
      if name.map toLowerJS = lowerKey then some (trimJS (h.drop (idx + 1)))
      else go rest lowerKey

def isDigit (b : Nat) : Bool := 48 ≤ b && b ≤ 57

def digitsVal (l : List Nat) : Option Nat :=
  let ds := l.takeWhile isDigit
  if ds.isEmpty then none
  else some (ds.foldl (fun acc d => acc * 10 + (d - 48)) 0)

/-- JavaScript `parseInt(s, 10)`: skip leading whitespace, optional sign,
then a non-empty digit run (trailing garbage ignored); `none` is `NaN`. -/
def parseIntJS (s : List Nat) : Option Int :=
  match s.dropWhile isJSWhitespace with
  | 43 :: rest => (digitsVal rest).map (fun n => (n : Int))
  | 45 :: rest => (digitsVal rest).map (fun n => -(n : Int))
  | s1 => (digitsVal s1).map (fun n => (n : Int))

/-- A body reader: the `length` field is fixed at construction; `src` is the
reader's mutable closure state. -/
inductive BodySrc where
  | memory (data : List Nat) (done : Bool)
  | connLen (remain : Int)
deriving DecidableEq, Repr

structure BodyReader where
  length : Int
  src : BodySrc
deriving DecidableEq, Repr

def readerFromMemory (data : List Nat) : BodyReader :=
  ⟨(data.length : Int), .memory data false⟩

def readerFromConnLength (remain : Int) : BodyReader :=
  ⟨remain, .connLen remain⟩

def readerFromReq (req : HTTPReq) : Except HTTPError BodyReader :=
  let contentLen := fieldGet req.headers (strBytes "Content-Length")
  let chunked : Bool :=
    match fieldGet req.headers (strBytes "Transfer-Encoding") with
    | some v => v = strBytes "chunked"
    | none => false
  let bodyAllowed := ¬(req.method = strBytes "GET" ∨ req.method = strBytes "HEAD")
  if ¬ bodyAllowed then .ok (readerFromMemory [])
  else
    match contentLen with
    | some v =>
      match parseIntJS v with
      | none => .error ⟨400, "Bad Content-Length"⟩
      | some bodyLen => .ok (readerFromConnLength bodyLen)
    | none =>
      if chunked then .ok (readerFromMemory [])  -- chunked unsupported: ignore body
      else .ok (readerFromMemory [])

/-- A `POST` request declaring a negative Content-Length. -/
def cexNegReq : HTTPReq :=
  ⟨strBytes "POST", strBytes "/x", strBytes "1.1", [strBytes "Content-Length: -5"]⟩

/-! ## Connection-backed reading

`SState` is the per-connection mutable state a body reader and the serve
loop share: the framing buffer and the not-yet-delivered input chunks. -/

structure SState where
  buf : DynBuf
  stream : List (List Nat)
deriving DecidableEq, Repr

/-- `soRead` on an error-free connection: the pending read resolves with the
next data chunk, or with the empty chunk once the stream has ended. -/
def soReadS : List (List Nat) → List Nat × List (List Nat)
  | [] => ([], [])
  | d :: rest => (d, rest)

/-- The tail of `readerFromConnLength.read` after the buffer is known
non-empty: consume `min(buf.length, remain)` buffered bytes.  `Int.toNat`
clamps negative counts to zero; the source's `subarray` arithmetic differs
there, but no verified property reads from a negative-count reader. -/
def bodyConsume (remain length0 : Int) (st : SState) :
    Except String (List Nat × BodyReader × SState) :=
  let consume : Int := min (st.buf.length : Int) remain
  let data := st.buf.data.take consume.toNat
  .ok (data, ⟨length0, .connLen (remain - consume)⟩,
    ⟨bufPop st.buf consume.toNat, st.stream⟩)

/-- One `read()` on a body reader. -/
def bodyRead (r : BodyReader) (st : SState) :
    Except String (List Nat × BodyReader × SState) :=
  match r.src with
  | .memory data done =>
    if done then .ok ([], ⟨r.length, .memory data true⟩, st)
    else .ok (data, ⟨r.length, .memory data true⟩, st)
  | .connLen remain =>
    if remain = 0 then .ok ([], r, st)
    else if st.buf.length = 0 then
      match soReadS st.stream with
      | (d, stream1) =>
        let buf1 := bufPush st.buf d
        if d.length = 0 then .error "Unexpected EOF"
        else bodyConsume remain r.length ⟨buf1, stream1⟩
    else bodyConsume remain r.length st

/-- Successive reads (stopping at an error), collecting the chunks. -/
def readTrace : Nat → BodyReader → SState → List (List Nat)
  | 0, _, _ => []
  | k + 1, r, st =>
    match bodyRead r st with
    | .error _ => []
    | .ok (d, r1, st1) => d :: readTrace k r1 st1

def totalLen (ws : List (List Nat)) : Nat := (ws.map List.length).sum

/-! ## Response encoding and writing -/

structure HTTPRes where
  code : Nat
  headers : List (List Nat)
  body : BodyReader
deriving DecidableEq, Repr

def joinCRLF : List (List Nat) → List Nat
  | [] => []
  | [x] => x
  | x :: y :: rest => x ++ [13, 10] ++ joinCRLF (y :: rest)

def natBytes (n : Nat) : List Nat := strBytes (toString n)

def intBytes (i : Int) : List Nat := strBytes (toString i)

/-- The synthesized `Content-Length: ${res.body.length}` header line. -/
def clLine (len : Int) : List Nat := strBytes "Content-Length: " ++ intBytes len

def encodeHTTPResp (res : HTTPRes) : List Nat :=
  joinCRLF ([strBytes "HTTP/1.1 " ++ natBytes res.code ++ strBytes " OK"]
    ++ res.headers ++ [[13, 10]])

/-- The write loop of `writeHTTPResp`: read chunks and write each non-empty
one, stopping at the first empty chunk; returns the chunks written. -/
def writeBodyLoop : Nat → BodyReader → SState → Except String (List (List Nat) × BodyReader × SState)
  | 0, _, _ => .error "out of fuel"
  | fuel + 1, r, st =>
    match bodyRead r st with
    | .error e => .error e
    | .ok (d, r1, st1) =>
      if d.length = 0 then .ok ([], r1, st1)
      else
        match writeBodyLoop fuel r1 st1 with
        | .error e => .error e
        | .ok (ws, r2, st2) => .ok (d :: ws, r2, st2)

/-- The response writer.  Returns the sequence of transport writes (the
header block is the single first write), the connection state, and the
response value after the source's in-place `headers.push` mutation. -/
def writeHTTPResp (fuel : Nat) (st : SState) (res : HTTPRes) :
    Except String (List (List Nat) × SState × HTTPRes) :=
  if res.body.length < 0 then .error "TODO: chunked encoding"
  else
    let res1 : HTTPRes := { res with headers := res.headers ++ [clLine res.body.length] }
    let header := encodeHTTPResp res1
    match writeBodyLoop fuel res1.body st with
    | .error e => .error e
    | .ok (ws, r2, st2) => .ok (header :: ws, st2, { res1 with body := r2 })

/-- Specification-side trace: the chunks successive reads yield before the
first empty chunk. -/
def readsUntilEmpty : Nat → BodyReader → SState → Except String (List (List Nat))
  | 0, _, _ => .error "out of fuel"
  | fuel + 1, r, st =>
    match bodyRead r st with
    | .error e => .error e
    | .ok (d, r1, st1) =>
      if d.length = 0 then .ok []
      else (readsUntilEmpty fuel r1 st1).map (d :: ·)

/-! ## Request handler and server loop -/

def handleReq (req : HTTPReq) (body : BodyReader) : HTTPRes :=
  if req.uri = strBytes "/echo" then
    ⟨200, [strBytes "Server: my_first_http_server"], body⟩
  else
    ⟨200, [strBytes "Server: my_first_http_server"], readerFromMemory (strBytes "hello world.\n")⟩

inductive SrvErr where
  | http (e : HTTPError)
  | other (msg : String)
deriving DecidableEq, Repr

/-- `while ((await reqBody.read()).length > 0) {}` -/
def drainLoop : Nat → BodyReader → SState → Except SrvErr (BodyReader × SState)
  | 0, _, _ => .error (.other "out of fuel")
  | fuel + 1, r, st =>
    match bodyRead r st with
    | .error e => .error (.other e)
    | .ok (d, r1, st1) => if d.length = 0 then .ok (r1, st1) else drainLoop fuel r1 st1

/-- The per-connection serve loop; returns the transport writes issued. -/
def serveLoop : Nat → SState → Except SrvErr (List (List Nat) × SState)
  | 0, _ => .error (.other "out of fuel")
  | fuel + 1, st =>
    match cutMessage st.buf with
    | .error e => .error (.http e)
    | .ok (none, buf1) =>
      match soReadS st.stream with
      | (d, stream1) =>
        let buf2 := bufPush buf1 d
        if d.length = 0 then
          if buf2.length = 0 then .ok ([], ⟨buf2, stream1⟩)
          else .error (.http ⟨400, "Unexpected EOF"⟩)
        else serveLoop fuel ⟨buf2, stream1⟩
    | .ok (some msg, buf1) =>
      match readerFromReq msg with
      | .error e => .error (.http e)
      | .ok reqBody =>
        let res := handleReq msg reqBody
        match writeHTTPResp fuel ⟨buf1, st.stream⟩ res with
        | .error e => .error (.other e)
        | .ok (ws, st2, res2) =>
          if msg.version = strBytes "1.0" then .ok (ws, st2)
          else
            -- the echo handler hands the request body reader itself to the
            -- response, so after the write loop the shared reader's state
            -- is res2.body; otherwise reqBody is untouched by the writer
            let rb := if msg.uri = strBytes "/echo" then res2.body else reqBody
            match drainLoop fuel rb st2 with
            | .error e => .error e
            | .ok (_, st3) =>
              match serveLoop fuel st3 with
              | .error e => .error e
              | .ok (ws2, st4) => .ok (ws ++ ws2, st4)

/-- `serveClient`: the loop started on a fresh empty buffer. -/
def serveClient (fuel : Nat) (stream : List (List Nat)) :
    Except SrvErr (List (List Nat) × SState) :=
  serveLoop fuel ⟨emptyBuf, stream⟩

/-- An `HTTP/1.0` request; `st10` holds two complete copies in the buffer
and one more arriving on the stream. -/
def req10bytes : List Nat := strBytes "GET / HTTP/1.0\r\n\r\n"

def st10 : SState := ⟨⟨req10bytes ++ req10bytes, 36⟩, [req10bytes]⟩

/-! ## Stream adapter terminal states (`soInit` handlers and `soRead`) -/

structure TCPConn where
  ended : Bool
  err : Option Nat
  reader : Bool
deriving DecidableEq, Repr

/-- The connection state `soInit` builds. -/
def soInit : TCPConn := ⟨false, none, false⟩

/-- The `socket.on("end")` handler: latch `ended`, resolve any pending read
with the empty chunk. -/
def onEnd (c : TCPConn) : TCPConn := { c with ended := true, reader := false }

/-- The `socket.on("error")` handler: latch `err`, reject any pending read. -/
def onError (c : TCPConn) (e : Nat) : TCPConn := { c with err := some e, reader := false }

inductive ReadRes where
  | resolved (d : List Nat)
  | rejected (e : Nat)
  | pending
deriving DecidableEq, Repr

/-- `soRead`: immediately resolve on latched end, immediately reject on a
latched error, otherwise arm the single-slot reader and resume delivery. -/
def soRead (c : TCPConn) : ReadRes × TCPConn :=
  if c.ended then (.resolved [], c)
  else
    match c.err with
    | some e => (.rejected e, c)
    | none => (.pending, { c with reader := true })

/-! # Theorems -/

theorem growCapAux_ge {fuel cap newLen : Nat} (h1 : 1 ≤ cap) (h2 : newLen ≤ cap + fuel) :
    newLen ≤ growCapAux fuel cap newLen := by
  induction fuel generalizing cap with
  | zero => simpa [growCapAux] using by omega
  | succ n ih =>
    simp only [growCapAux]
    split
    · exact ih (by omega) (by omega)
    · omega

theorem growCap_ge {cap newLen : Nat} (h1 : 1 ≤ cap) : newLen ≤ growCap cap newLen :=
  growCapAux_ge h1 (by omega)

theorem overwrite_length {dst : List Nat} {off : Nat} (src : List Nat)
    (h : off ≤ dst.length) : (overwrite dst off src).length = dst.length := by
  simp [overwrite]
  omega

theorem overwrite_take {st : List Nat} {l : Nat} {d : List Nat}
    (h : l + d.length ≤ st.length) :
    (overwrite st l d).take (l + d.length) = st.take l ++ d := by
  have hd : d.take (st.length - l) = d := List.take_of_length_le (by omega)
  have hlen : (st.take l).length = l := List.length_take_of_le (by omega)
  simp only [overwrite, hd]
  rw [List.take_append_eq_append_take, List.take_append_eq_append_take]
  have h1 : (st.take l).take (l + d.length) = st.take l := by
    apply List.take_of_length_le; omega
  have h2 : d.take (l + d.length - (st.take l).length) = d := by
    apply List.take_of_length_le; omega
  simp [h1, h2, hlen]

theorem bufPush_inv {buf : DynBuf} (h : bufInv buf) (d : List Nat) :
    bufInv (bufPush buf d) := by
  unfold bufInv at h
  unfold bufInv bufPush
  simp only
  split
  · rename_i hgrow
    have hcap : buf.length + d.length ≤ growCap (max buf.data.length 32) (buf.length + d.length) :=
      growCap_ge (by omega)
    have hst : (overwrite (List.replicate (growCap (max buf.data.length 32)
        (buf.length + d.length)) 0) 0 (buf.data.take buf.length)).length =
        growCap (max buf.data.length 32) (buf.length + d.length) := by
      rw [overwrite_length _ (by simp)]; simp
    rw [overwrite_length _ (by rw [hst]; omega), hst]
    omega
  · rename_i hno
    rw [overwrite_length _ (by omega)]
    omega

theorem bufPush_contents {buf : DynBuf} (h : bufInv buf) (d : List Nat) :
    bufContents (bufPush buf d) = bufContents buf ++ d := by
  unfold bufInv at h
  unfold bufContents bufPush
  simp only
  split
  · rename_i hgrow
    set cap := growCap (max buf.data.length 32) (buf.length + d.length) with hc
    have hcap : buf.length + d.length ≤ cap := growCap_ge (by omega)
    set st := overwrite (List.replicate cap 0) 0 (buf.data.take buf.length) with hst
    have hstlen : st.length = cap := by
      rw [hst, overwrite_length] <;> simp
    have hsttake : st.take buf.length = buf.data.take buf.length := by
      have : st.take (0 + (buf.data.take buf.length).length) =
          (List.replicate cap 0).take 0 ++ buf.data.take buf.length := by
        rw [hst]
        exact overwrite_take (by simp [List.length_take]; omega)
      simp only [List.take_nil, List.take_zero, List.nil_append, zero_add] at this
      rw [List.length_take_of_le (by omega)] at this
      exact this
    calc (overwrite st buf.length d).take (buf.length + d.length)
        = st.take buf.length ++ d := overwrite_take (by omega)
      _ = buf.data.take buf.length ++ d := by rw [hsttake]
  · rename_i hno
    exact overwrite_take (by omega)

theorem bufPop_inv {buf : DynBuf} (h : bufInv buf) (len : Nat) :
    bufInv (bufPop buf len) := by
  unfold bufInv at h ⊢
  unfold bufPop
  simp only
  rw [overwrite_length _ (by omega)]
  omega

theorem bufPop_contents {buf : DynBuf} (h : bufInv buf) {len : Nat}
    (hlen : len ≤ buf.length) :
    bufContents (bufPop buf len) = (bufContents buf).drop len := by
  unfold bufInv at h
  unfold bufContents bufPop
  simp only
  set seg := (buf.data.take buf.length).drop len with hseg
  have hseglen : seg.length = buf.length - len := by
    simp [hseg, List.length_take]; omega
  have : (overwrite buf.data 0 seg).take (0 + seg.length) = buf.data.take 0 ++ seg :=
    overwrite_take (by omega)
  simp only [zero_add, List.take_zero, List.nil_append] at this
  rw [hseglen] at this
  exact this

theorem emptyBuf_inv : bufInv emptyBuf := by simp [bufInv, emptyBuf]

theorem emptyBuf_contents : bufContents emptyBuf = [] := by simp [bufContents, emptyBuf]

theorem matchAt_cons_succ {x : Nat} {xs : List Nat} {j : Nat} :
    matchAt (x :: xs) (j + 1) ↔ matchAt xs j := by
  simp [matchAt]

theorem findCRLF2_eq_none_iff {l : List Nat} :
    findCRLF2 l = none ↔ ∀ j, ¬ matchAt l j := by
  induction l with
  | nil =>
    simp only [findCRLF2, true_iff]
    intro j hm
    have := hm.length_le
    simp [crlfcrlf] at this
  | cons x xs ih =>
    simp only [findCRLF2]
    split
    · rename_i hp
      have h0 : matchAt (x :: xs) 0 := by
        simpa [matchAt] using List.isPrefixOf_iff_prefix.mp hp
      constructor
      · intro h; exact absurd h (by simp)
      · intro h; exact absurd h0 (h 0)
    · rename_i hp
      have h0 : ¬ matchAt (x :: xs) 0 := by
        intro hm
        exact hp (List.isPrefixOf_iff_prefix.mpr (by simpa [matchAt] using hm))
      rw [Option.map_eq_none', ih]
      constructor
      · intro h j
        cases j with
        | zero => exact h0
        | succ n => rw [matchAt_cons_succ]; exact h n
      · intro h j
        have := h (j + 1)
        rwa [matchAt_cons_succ] at this

theorem findCRLF2_eq_some_iff {l : List Nat} {i : Nat} :
    findCRLF2 l = some i ↔ matchAt l i ∧ ∀ j, j < i → ¬ matchAt l j := by
  induction l generalizing i with
  | nil =>
    constructor
    · intro h
      exact absurd h (by simp [findCRLF2])
    · rintro ⟨hm, -⟩
      have := hm.length_le
      simp [crlfcrlf] at this
  | cons x xs ih =>
    simp only [findCRLF2]
    split
    · rename_i hp
      have h0 : matchAt (x :: xs) 0 := by
        simpa [matchAt] using List.isPrefixOf_iff_prefix.mp hp
      constructor
      · intro h
        obtain rfl : i = 0 := by simpa using h.symm
        exact ⟨h0, fun j hj => by omega⟩
      · rintro ⟨hm, hmin⟩
        cases i with
        | zero => rfl
        | succ n => exact absurd h0 (hmin 0 (by omega))
    · rename_i hp
      have h0 : ¬ matchAt (x :: xs) 0 := by
        intro hm
        exact hp (List.isPrefixOf_iff_prefix.mpr (by simpa [matchAt] using hm))
      rw [Option.map_eq_some']
      constructor
      · rintro ⟨a, ha, rfl⟩
        obtain ⟨hm, hmin⟩ := ih.mp ha
        refine ⟨matchAt_cons_succ.mpr hm, ?_⟩
        intro j hj
        cases j with
        | zero => exact h0
        | succ n => rw [matchAt_cons_succ]; exact hmin n (by omega)
      · rintro ⟨hm, hmin⟩
        cases i with
        | zero => exact absurd hm h0
        | succ n =>
          refine ⟨n, ih.mpr ⟨matchAt_cons_succ.mp hm, ?_⟩, rfl⟩
          intro j hj
          have := hmin (j + 1) (by omega)
          rwa [matchAt_cons_succ] at this

theorem crlfcrlf_prefix_take_iff {s : List Nat} {m : Nat} :
    crlfcrlf <+: s.take m ↔ crlfcrlf <+: s ∧ 4 ≤ m := by
  constructor
  · intro h
    have h4 : (4 : Nat) ≤ (s.take m).length := by
      simpa [crlfcrlf] using h.length_le
    refine ⟨h.trans (List.take_prefix m s), ?_⟩
    simp [List.length_take] at h4
    omega
  · rintro ⟨⟨t, rfl⟩, hm⟩
    rw [List.take_append_eq_append_take,
      List.take_of_length_le (show crlfcrlf.length ≤ m by simp [crlfcrlf]; omega)]
    exact List.prefix_append _ _

theorem matchAt_take {l : List Nat} {k j : Nat} :
    matchAt (l.take k) j ↔ matchAt l j ∧ j + 4 ≤ k := by
  unfold matchAt
  rw [List.drop_take, crlfcrlf_prefix_take_iff]
  exact ⟨fun ⟨a, b⟩ => ⟨a, by omega⟩, fun ⟨a, b⟩ => ⟨a, by omega⟩⟩

theorem findCRLF2_take_of_lt {l : List Nat} {i k : Nat}
    (h : findCRLF2 l = some i) (hk : k < i + 4) : findCRLF2 (l.take k) = none := by
  obtain ⟨hm, hmin⟩ := findCRLF2_eq_some_iff.mp h
  rw [findCRLF2_eq_none_iff]
  intro j hj
  obtain ⟨hj1, hj2⟩ := matchAt_take.mp hj
  exact hmin j (by omega) hj1

theorem findCRLF2_take_of_ge {l : List Nat} {i k : Nat}
    (h : findCRLF2 l = some i) (hk : i + 4 ≤ k) : findCRLF2 (l.take k) = some i := by
  obtain ⟨hm, hmin⟩ := findCRLF2_eq_some_iff.mp h
  rw [findCRLF2_eq_some_iff]
  refine ⟨matchAt_take.mpr ⟨hm, hk⟩, ?_⟩
  intro j hj hjm
  exact hmin j hj (matchAt_take.mp hjm).1

theorem findCRLF2_append {l r : List Nat} (h : ∀ b ∈ l, b ≠ 13) :
    findCRLF2 (l ++ r) = (findCRLF2 r).map (· + l.length) := by
  induction l with
  | nil => simp
  | cons x xs ih =>
    have hx : x ≠ 13 := h x (List.mem_cons_self x xs)
    have ih' := ih (fun b hb => h b (List.mem_cons_of_mem x hb))
    have hp : crlfcrlf.isPrefixOf (x :: (xs ++ r)) = false := by
      rw [Bool.eq_false_iff]
      intro hcc
      obtain ⟨t, ht⟩ := List.isPrefixOf_iff_prefix.mp hcc
      simp [crlfcrlf] at ht
      exact hx ht.1.symm
    show (if crlfcrlf.isPrefixOf (x :: (xs ++ r)) = true then some 0
      else (findCRLF2 (xs ++ r)).map (· + 1)) = (findCRLF2 r).map (· + (x :: xs).length)
    rw [hp, if_neg (by simp), ih']
    cases hr : findCRLF2 r <;> simp [hr, Nat.add_assoc]

theorem findCRLF2_eq_none_of_noCR {l : List Nat} (h : ∀ b ∈ l, b ≠ 13) :
    findCRLF2 l = none := by
  have := @findCRLF2_append l [] h
  simpa [findCRLF2] using this

/-! ### C2: the framer's incomplete/too-large discipline -/

/-- C2: `cutMessage` returns the incomplete result (`none`, buffer untouched)
exactly when the occupied bytes contain no CRLFCRLF terminator and the
occupied length is below `kMaxHeaderLen`; with no terminator at or past that
length it fails with the 413 request-too-large error. -/
theorem cutMessage_incomplete_iff (buf : DynBuf) :
    (cutMessage buf = .ok (none, buf) ↔
      findCRLF2 (bufContents buf) = none ∧ buf.length < kMaxHeaderLen) ∧
    (findCRLF2 (bufContents buf) = none → kMaxHeaderLen ≤ buf.length →
      cutMessage buf = .error ⟨413, "Header too large"⟩) := by
  constructor
  · constructor
    · intro h
      unfold cutMessage at h
      cases hf : findCRLF2 (bufContents buf) with
      | none =>
        simp only [hf] at h
        by_cases hle : kMaxHeaderLen ≤ buf.length
        · rw [if_pos hle] at h
          exact absurd h (by simp)
        · exact ⟨rfl, by omega⟩
      | some idx =>
        simp only [hf] at h
        cases hp : parseHTTPReq ((bufContents buf).take (idx + 4)) with
        | error e => simp [hp] at h
        | ok msg => simp [hp] at h
    · rintro ⟨h1, h2⟩
      unfold cutMessage
      rw [h1, if_neg (by omega)]
  · intro h1 h2
    unfold cutMessage
    rw [h1, if_pos h2]

theorem cutMessage_incomplete_iff_witness :
    cutMessage bigBuf413 = .error ⟨413, "Header too large"⟩ := by
  apply (cutMessage_incomplete_iff bigBuf413).2
  · have hc : bufContents bigBuf413 = List.replicate kMaxHeaderLen 97 := by
      unfold bufContents bigBuf413
      exact List.take_of_length_le (by simp)
    rw [hc]
    exact findCRLF2_eq_none_of_noCR (fun b hb => by
      have := List.eq_of_mem_replicate hb
      omega)
  · exact le_refl _

/-! ### C8: the append/consume contents invariant -/

theorem validOps_take {ops : List BufOp} {buf : DynBuf} {k : Nat}
    (h : validOps ops buf = true) : validOps (ops.take k) buf = true := by
  induction ops generalizing buf k with
  | nil => simp [validOps]
  | cons op rest ih =>
    cases k with
    | zero => simp [validOps]
    | succ n =>
      cases op with
      | push d =>
        simp only [List.take_succ_cons, validOps] at h ⊢
        exact ih h
      | pop m =>
        simp only [List.take_succ_cons, validOps, Bool.and_eq_true] at h ⊢
        exact ⟨h.1, ih h.2⟩

theorem runOps_invariant (ops : List BufOp) (buf : DynBuf)
    (hinv : bufInv buf) (hv : validOps ops buf = true) :
    bufInv (runOps ops buf) ∧
    bufContents (runOps ops buf) = modelOps ops (bufContents buf) := by
  induction ops generalizing buf with
  | nil => exact ⟨hinv, rfl⟩
  | cons op rest ih =>
    cases op with
    | push d =>
      simp only [validOps] at hv
      simp only [runOps, modelOps]
      obtain ⟨ha, hb⟩ := ih (bufPush buf d) (bufPush_inv hinv d) hv
      exact ⟨ha, by rw [hb, bufPush_contents hinv]⟩
    | pop n =>
      simp only [validOps, Bool.and_eq_true, decide_eq_true_eq] at hv
      obtain ⟨hn, hv2⟩ := hv
      simp only [runOps, modelOps]
      obtain ⟨ha, hb⟩ := ih (bufPop buf n) (bufPop_inv hinv n) hv2
      exact ⟨ha, by rw [hb, bufPop_contents hinv hn]⟩

/-- C8: for every valid sequence of append/consume operations from the empty
buffer (each consume at most the occupied length), the occupied length never
exceeds the storage capacity at any point, and the final occupied prefix is
exactly the appended-minus-consumed byte sequence, in order. -/
theorem bufOps_inv_and_contents (ops : List BufOp) (h : validOps ops emptyBuf = true) :
    (∀ k, (runOps (ops.take k) emptyBuf).length ≤ (runOps (ops.take k) emptyBuf).data.length) ∧
    bufContents (runOps ops emptyBuf) = modelOps ops [] := by
  constructor
  · intro k
    exact (runOps_invariant _ _ emptyBuf_inv (validOps_take h)).1
  · have := (runOps_invariant ops emptyBuf emptyBuf_inv h).2
    rwa [emptyBuf_contents] at this

theorem bufOps_inv_and_contents_witness :
    bufContents (runOps [.push [1, 2, 3], .pop 2, .push [4, 5]] emptyBuf) =
      modelOps [.push [1, 2, 3], .pop 2, .push [4, 5]] [] ∧
    bufContents (runOps [.push [1, 2, 3], .pop 2, .push [4, 5]] emptyBuf) = [3, 4, 5] :=
  ⟨(bufOps_inv_and_contents _ (by decide)).2, by decide⟩

/-! ### C9: latched end/error on the stream adapter -/

/-- C9 (amended): in any terminal connection state `soRead` resolves
immediately and identically, without re-arming delivery: after a clean end
every read resolves with the empty chunk; after a transport error with no
clean end observed every read rejects with the latched error.  (When both
were observed, the clean-end result takes precedence.) -/
theorem soRead_latched (c : TCPConn) :
    (c.ended = true → soRead c = (.resolved [], c)) ∧
    (c.ended = false → ∀ e, c.err = some e → soRead c = (.rejected e, c)) ∧
    (c.ended = true ∨ c.err ≠ none →
      (soRead c).2 = c ∧ soRead (soRead c).2 = soRead c ∧ (soRead c).1 ≠ .pending) := by
  refine ⟨?_, ?_, ?_⟩
  · intro h; simp [soRead, h]
  · intro h e he; simp [soRead, h, he]
  · intro h
    cases hE : c.ended with
    | true => refine ⟨?_, ?_, ?_⟩ <;> simp [soRead, hE]
    | false =>
      have herr' : c.err ≠ none := by
        rcases h with h1 | h2
        · rw [hE] at h1; cases h1
        · exact h2
      cases herr : c.err with
      | none => exact absurd herr herr'
      | some e => refine ⟨?_, ?_, ?_⟩ <;> simp [soRead, hE, herr]

theorem soRead_latched_witness :
    soRead ⟨true, none, false⟩ = (.resolved [], ⟨true, none, false⟩) :=
  (soRead_latched ⟨true, none, false⟩).1 rfl

/-- C9 counterexample: after the `end` handler and then the `error` handler
have both fired, the error field is latched, yet `soRead` resolves with the
empty chunk rather than failing with the latched error. -/
theorem soRead_end_then_error_cex :
    (onError (onEnd soInit) 7).err = some 7 ∧
    soRead (onError (onEnd soInit) 7) = (.resolved [], onError (onEnd soInit) 7) :=
  ⟨rfl, rfl⟩

/-! ### C4: Content-Length parsing during body-reader construction -/

/-- C4 (amended): for a request whose method allows a body and which carries
a Content-Length header, body-reader construction parses the value with
JavaScript `parseInt` semantics and rejects with the 400 bad-length error
exactly when no leading integer numeral is present; any parseable leading
integer — including a negative one — is accepted, and the connection-backed
reader is constructed bounded to that (possibly negative) count. -/
theorem readerFromReq_contentLength (req : HTTPReq)
    (hm : ¬(req.method = strBytes "GET" ∨ req.method = strBytes "HEAD"))
    (v : List Nat) (hv : fieldGet req.headers (strBytes "Content-Length") = some v) :
    (parseIntJS v = none → readerFromReq req = .error ⟨400, "Bad Content-Length"⟩) ∧
    (∀ n, parseIntJS v = some n → readerFromReq req = .ok (readerFromConnLength n)) := by
  constructor
  · intro hp
    simp only [readerFromReq, hv, hp]
    rw [if_neg (fun hh => hh hm)]
  · intro n hp
    simp only [readerFromReq, hv, hp]
    rw [if_neg (fun hh => hh hm)]

theorem readerFromReq_contentLength_witness :
    readerFromReq ⟨strBytes "POST", strBytes "/y", strBytes "1.1",
      [strBytes "Content-Length: kk"]⟩ = .error ⟨400, "Bad Content-Length"⟩ :=
  (readerFromReq_contentLength ⟨strBytes "POST", strBytes "/y", strBytes "1.1",
      [strBytes "Content-Length: kk"]⟩ (by decide) (strBytes "kk") (by decide)).1 (by decide)

/-- C4 counterexample: a POST carrying `Content-Length: -5` — a value that is
not a non-negative integer — is not rejected: construction succeeds and
yields a connection-backed reader with the negative count. -/
theorem readerFromReq_negative_cex :
    readerFromReq cexNegReq = .ok (readerFromConnLength (-5)) := rfl

/-! ### C3: request-line validation -/

theorem splitByte_ne_nil (sep : Nat) (l : List Nat) : splitByte sep l ≠ [] := by
  cases l with
  | nil => simp [splitByte]
  | cons x xs =>
    simp only [splitByte]
    split
    · simp
    · cases hsb : splitByte sep xs <;> simp [consHead]

theorem splitByte_http_slash (rest : List Nat) :
    splitByte 47 (kHTTPSlash ++ rest) = [72, 84, 84, 80] :: splitByte 47 rest := by
  have h : kHTTPSlash = [72, 84, 84, 80, 47] := by decide
  rw [h]
  simp [splitByte, consHead]

/-- C3: parsing the request line succeeds only if it splits on spaces into
exactly three tokens whose third token carries the literal `HTTP/` prefix
followed by a non-empty suffix; a different token count, a missing prefix,
or an empty suffix is rejected with a 400 malformed-request error. -/
theorem parseRequestLine_spec (line : List Nat) :
    ((∃ r, parseRequestLine line = .ok r) →
      (splitByte 32 line).length = 3 ∧
      kHTTPSlash.isPrefixOf ((splitByte 32 line).getD 2 []) = true ∧
      ((splitByte 32 line).getD 2 []).drop 5 ≠ []) ∧
    (¬ ((splitByte 32 line).length = 3 ∧
        kHTTPSlash.isPrefixOf ((splitByte 32 line).getD 2 []) = true ∧
        ((splitByte 32 line).getD 2 []).drop 5 ≠ []) →
      ∃ m, parseRequestLine line = .error ⟨400, m⟩) := by
  rcases hs : splitByte 32 line with _ | ⟨a, _ | ⟨b, _ | ⟨c, _ | ⟨d, t⟩⟩⟩⟩
  · exact ⟨fun ⟨r, hr⟩ => absurd hr (by simp [parseRequestLine, hs]),
      fun hnc => ⟨"Bad request line", by simp [parseRequestLine, hs]⟩⟩
  · exact ⟨fun ⟨r, hr⟩ => absurd hr (by simp [parseRequestLine, hs]),
      fun hnc => ⟨"Bad request line", by simp [parseRequestLine, hs]⟩⟩
  · exact ⟨fun ⟨r, hr⟩ => absurd hr (by simp [parseRequestLine, hs]),
      fun hnc => ⟨"Bad request line", by simp [parseRequestLine, hs]⟩⟩
  · -- exactly three tokens
    cases hpf : kHTTPSlash.isPrefixOf c with
    | false =>
      refine ⟨fun ⟨r, hr⟩ => ?_, fun hnc => ⟨"Bad version", ?_⟩⟩
      · rw [show parseRequestLine line = .error ⟨400, "Bad version"⟩ from by
          simp [parseRequestLine, hs, hpf]] at hr
        exact absurd hr (by simp)
      · simp [parseRequestLine, hs, hpf]
    | true =>
      obtain ⟨rest, hc⟩ := List.isPrefixOf_iff_prefix.mp hpf
      subst hc
      have hdrop : (kHTTPSlash ++ rest).drop 5 = rest := by
        have h5 : kHTTPSlash.length = 5 := by decide
        rw [show (5 : Nat) = kHTTPSlash.length from h5.symm, List.drop_left]
      cases rest with
      | nil =>
        -- protocol is exactly `HTTP/`: the version suffix is empty and
        -- parsing fails with 400
        refine ⟨fun ⟨r, hr⟩ => ?_, fun hnc => ⟨"Bad version", ?_⟩⟩
        · rw [show parseRequestLine line = .error ⟨400, "Bad version"⟩ from by
            simp [parseRequestLine, hs, hpf, splitByte_http_slash, splitByte, consHead]] at hr
          exact absurd hr (by simp)
        · simp [parseRequestLine, hs, hpf, splitByte_http_slash, splitByte, consHead]
      | cons x xs =>
        -- the three-token condition holds outright, so both implications
        -- are immediate (parsing may still fail on `HTTP//…`, which the
        -- claim's "only if" permits)
        have hC : [a, b, kHTTPSlash ++ x :: xs].length = 3 ∧
            kHTTPSlash.isPrefixOf ([a, b, kHTTPSlash ++ x :: xs].getD 2 []) = true ∧
            ([a, b, kHTTPSlash ++ x :: xs].getD 2 []).drop 5 ≠ [] :=
          ⟨by simp, by simp, by simp [hdrop]⟩
        exact ⟨fun _ => hC, fun hnc => absurd hC hnc⟩
  · exact ⟨fun ⟨r, hr⟩ => absurd hr (by simp [parseRequestLine, hs]),
      fun hnc => ⟨"Bad request line", by simp [parseRequestLine, hs]⟩⟩

theorem parseRequestLine_spec_witness :
    ∃ m, parseRequestLine (strBytes "GET /") = .error ⟨400, m⟩ :=
  (parseRequestLine_spec (strBytes "GET /")).2 (by decide)

/-! ### C6 and C10: the response writer -/

theorem bodyRead_length {r : BodyReader} {st : SState} {d : List Nat}
    {r1 : BodyReader} {st1 : SState}
    (h : bodyRead r st = .ok (d, r1, st1)) : r1.length = r.length := by
  cases r with
  | mk len src =>
    cases src with
    | memory data done =>
      simp only [bodyRead] at h
      split at h <;>
        (simp only [Except.ok.injEq, Prod.mk.injEq] at h; rw [← h.2.1])
    | connLen remain =>
      simp only [bodyRead] at h
      split at h
      · simp only [Except.ok.injEq, Prod.mk.injEq] at h
        rw [← h.2.1]
      · split at h
        · rcases hso : soReadS st.stream with ⟨dd, stream1⟩
          rw [hso] at h
          split at h
          · simp at h
          · simp only [bodyConsume, Except.ok.injEq, Prod.mk.injEq] at h
            rw [← h.2.1]
        · simp only [bodyConsume, Except.ok.injEq, Prod.mk.injEq] at h
          rw [← h.2.1]

theorem writeBodyLoop_sound {fuel : Nat} :
    ∀ {r : BodyReader} {st : SState} {ws : List (List Nat)} {r2 : BodyReader} {st2 : SState},
    writeBodyLoop fuel r st = .ok (ws, r2, st2) →
    readsUntilEmpty fuel r st = .ok ws ∧ (∀ c ∈ ws, c ≠ []) ∧ r2.length = r.length := by
  induction fuel with
  | zero => intro r st ws r2 st2 h; simp [writeBodyLoop] at h
  | succ n ih =>
    intro r st ws r2 st2 h
    simp only [writeBodyLoop] at h
    cases hbr : bodyRead r st with
    | error e => simp only [hbr] at h; exact absurd h (by simp)
    | ok t =>
      obtain ⟨d, r1, st1⟩ := t
      simp only [hbr] at h
      by_cases hd : d.length = 0
      · rw [if_pos hd] at h
        simp only [Except.ok.injEq, Prod.mk.injEq] at h
        obtain ⟨hws, hr2, hst2⟩ := h
        refine ⟨?_, ?_, ?_⟩
        · simp [readsUntilEmpty, hbr, hd, hws]
        · intro c hc; rw [← hws] at hc; cases hc
        · rw [← hr2]; exact bodyRead_length hbr
      · rw [if_neg hd] at h
        cases hwl : writeBodyLoop n r1 st1 with
        | error e => simp only [hwl] at h; exact absurd h (by simp)
        | ok t2 =>
          obtain ⟨ws', r2', st2'⟩ := t2
          simp only [hwl] at h
          simp only [Except.ok.injEq, Prod.mk.injEq] at h
          obtain ⟨hws, hr2, hst2⟩ := h
          obtain ⟨ih1, ih2, ih3⟩ := ih hwl
          refine ⟨?_, ?_, ?_⟩
          · simp only [readsUntilEmpty, hbr, if_neg hd, ih1, Except.map]
            rw [hws]
          · intro c hc
            rw [← hws] at hc
            rcases List.mem_cons.mp hc with hc | hc
            · intro hcn; rw [hc] at hcn; rw [hcn] at hd; exact hd rfl
            · exact ih2 c hc
          · rw [← hr2, ih3]; exact bodyRead_length hbr

/-- C6: the writer fails (before writing anything) when the body's declared
length is negative; otherwise it appends a synthesized Content-Length header,
emits the status line, all header lines, and the blank terminator as the
single first write, then writes exactly the body's chunks up to (and
stopping at) the first empty read, each written chunk non-empty. -/
theorem writeHTTPResp_spec (fuel : Nat) (st : SState) (res : HTTPRes) :
    (res.body.length < 0 → writeHTTPResp fuel st res = .error "TODO: chunked encoding") ∧
    (0 ≤ res.body.length → ∀ ws st2 res2, writeHTTPResp fuel st res = .ok (ws, st2, res2) →
      ∃ chunks,
        ws = encodeHTTPResp { res with headers := res.headers ++ [clLine res.body.length] }
          :: chunks ∧
        readsUntilEmpty fuel res.body st = .ok chunks ∧ ∀ c ∈ chunks, c ≠ []) := by
  constructor
  · intro hneg
    simp [writeHTTPResp, hneg]
  · intro hpos ws st2 res2 h
    simp only [writeHTTPResp] at h
    rw [if_neg (by omega)] at h
    cases hwl : writeBodyLoop fuel res.body st with
    | error e => simp only [hwl] at h; exact absurd h (by simp)
    | ok t =>
      obtain ⟨ws', r2, st2'⟩ := t
      simp only [hwl] at h
      simp only [Except.ok.injEq, Prod.mk.injEq] at h
      obtain ⟨hws, hst2, hres2⟩ := h
      obtain ⟨h1, h2, h3⟩ := writeBodyLoop_sound hwl
      exact ⟨ws', hws.symm, h1, h2⟩

theorem writeHTTPResp_spec_witness :
    ∃ chunks,
      [encodeHTTPResp ⟨200, [clLine 2], readerFromMemory [7, 8]⟩, [7, 8]] =
        encodeHTTPResp ⟨200, [] ++ [clLine 2], readerFromMemory [7, 8]⟩ :: chunks ∧
      readsUntilEmpty 3 (readerFromMemory [7, 8]) ⟨emptyBuf, []⟩ = .ok chunks ∧
      ∀ c ∈ chunks, c ≠ [] :=
  (writeHTTPResp_spec 3 ⟨emptyBuf, []⟩ ⟨200, [], readerFromMemory [7, 8]⟩).2 (by decide)
    [encodeHTTPResp ⟨200, [clLine 2], readerFromMemory [7, 8]⟩, [7, 8]] ⟨emptyBuf, []⟩
    ⟨200, [clLine 2], ⟨2, .memory [7, 8] true⟩⟩ rfl

/-- C10: writing a response hands back a response value carrying the
synthesized Content-Length line appended to its own header array (one more
header than before), and invoking the writer again on that value appends a
second identical Content-Length line, so the second header write carries the
line twice. -/
theorem writeHTTPResp_mutates (fuel fuel2 : Nat) (st : SState) (res : HTTPRes) :
    ∀ ws st2 res2, writeHTTPResp fuel st res = .ok (ws, st2, res2) →
      res2.headers = res.headers ++ [clLine res.body.length] ∧
      res2.body.length = res.body.length ∧
      (∀ ws3 st3 res3, writeHTTPResp fuel2 st2 res2 = .ok (ws3, st3, res3) →
        res3.headers = res.headers ++ [clLine res.body.length, clLine res.body.length] ∧
        ws3.headD [] = encodeHTTPResp
          { res2 with headers := res.headers ++ [clLine res.body.length, clLine res.body.length] }) := by
  intro ws st2 res2 h
  simp only [writeHTTPResp] at h
  split at h
  · simp at h
  · cases hwl : writeBodyLoop fuel res.body st with
    | error e => simp only [hwl] at h; exact absurd h (by simp)
    | ok t =>
      obtain ⟨ws', r2, st2'⟩ := t
      simp only [hwl] at h
      simp only [Except.ok.injEq, Prod.mk.injEq] at h
      obtain ⟨hws, hst2, hres2⟩ := h
      have hlen2 : r2.length = res.body.length := (writeBodyLoop_sound hwl).2.2
      have hh2 : res2.headers = res.headers ++ [clLine res.body.length] := by
        rw [← hres2]
      have hb2 : res2.body.length = res.body.length := by
        rw [← hres2]; exact hlen2
      refine ⟨hh2, hb2, ?_⟩
      intro ws3 st3 res3 h3
      simp only [writeHTTPResp] at h3
      split at h3
      · simp at h3
      · cases hwl3 : writeBodyLoop fuel2 res2.body st2 with
        | error e => simp only [hwl3] at h3; exact absurd h3 (by simp)
        | ok t3 =>
          obtain ⟨ws3', r3, st3'⟩ := t3
          simp only [hwl3] at h3
          simp only [Except.ok.injEq, Prod.mk.injEq] at h3
          obtain ⟨hws3, hst3, hres3⟩ := h3
          constructor
          · rw [← hres3]
            simp only
            rw [hh2, hb2, List.append_assoc]
            rfl
          · rw [← hws3]
            simp only [List.headD_cons]
            rw [hh2, hb2, List.append_assoc]
            rfl

theorem writeHTTPResp_mutates_witness :
    (⟨200, [clLine 1, clLine 1], ⟨1, .memory [7] true⟩⟩ : HTTPRes).headers =
      [] ++ [clLine 1, clLine 1] ∧
    [encodeHTTPResp ⟨200, [clLine 1, clLine 1], ⟨1, .memory [7] true⟩⟩].headD [] =
      encodeHTTPResp ⟨200, [] ++ [clLine 1, clLine 1], ⟨1, .memory [7] true⟩⟩ :=
  (writeHTTPResp_mutates 3 3 ⟨emptyBuf, []⟩ ⟨200, [], readerFromMemory [7]⟩
      [encodeHTTPResp ⟨200, [clLine 1], readerFromMemory [7]⟩, [7]] ⟨emptyBuf, []⟩
      ⟨200, [clLine 1], ⟨1, .memory [7] true⟩⟩ rfl).2.2
    [encodeHTTPResp ⟨200, [clLine 1, clLine 1], ⟨1, .memory [7] true⟩⟩] ⟨emptyBuf, []⟩
    ⟨200, [clLine 1, clLine 1], ⟨1, .memory [7] true⟩⟩ rfl

/-! ### C5: the connection-backed, length-bounded body reader -/

theorem bodyConsume_ok {m len0 : Int} {st : SState} {d : List Nat}
    {r1 : BodyReader} {st1 : SState}
    (hm : 0 ≤ m) (hinv : bufInv st.buf)
    (h : bodyConsume m len0 st = .ok (d, r1, st1)) :
    r1 = ⟨len0, .connLen (m - d.length)⟩ ∧ (d.length : Int) ≤ m ∧ bufInv st1.buf := by
  simp only [bodyConsume, Except.ok.injEq, Prod.mk.injEq] at h
  obtain ⟨hd, hr1, hst1⟩ := h
  have hc0 : 0 ≤ min (st.buf.length : Int) m :=
    le_min (Int.ofNat_nonneg _) hm
  have hcl : (((min (st.buf.length : Int) m).toNat : Int)) = min (st.buf.length : Int) m :=
    Int.toNat_of_nonneg hc0
  have hdlen : d.length = (min (st.buf.length : Int) m).toNat := by
    rw [← hd, List.length_take]
    have h1 : (min (st.buf.length : Int) m).toNat ≤ st.buf.length :=
      Int.toNat_le.mpr (min_le_left _ _)
    unfold bufInv at hinv
    omega
  refine ⟨?_, ?_, ?_⟩
  · rw [← hr1, hdlen, hcl]
  · rw [hdlen, hcl]
    exact min_le_right _ _
  · rw [← hst1]
    exact bufPop_inv hinv _

theorem bodyRead_connLen_ok {m len0 : Int} {st : SState} {d : List Nat}
    {r1 : BodyReader} {st1 : SState}
    (hm : 0 ≤ m) (hinv : bufInv st.buf)
    (h : bodyRead ⟨len0, .connLen m⟩ st = .ok (d, r1, st1)) :
    r1 = ⟨len0, .connLen (m - d.length)⟩ ∧ (d.length : Int) ≤ m ∧ bufInv st1.buf := by
  simp only [bodyRead] at h
  by_cases hm0 : m = 0
  · subst hm0
    rw [if_pos rfl] at h
    simp only [Except.ok.injEq, Prod.mk.injEq] at h
    obtain ⟨h1, h2, h3⟩ := h
    refine ⟨?_, ?_, ?_⟩
    · rw [← h2, ← h1]; rfl
    · rw [← h1]; simp
    · rw [← h3]; exact hinv
  · rw [if_neg hm0] at h
    by_cases hb : st.buf.length = 0
    · rw [if_pos hb] at h
      rcases hso : soReadS st.stream with ⟨dd, stream1⟩
      rw [hso] at h
      by_cases hdd : dd.length = 0
      · rw [if_pos hdd] at h
        exact absurd h (by simp)
      · rw [if_neg hdd] at h
        exact bodyConsume_ok hm (bufPush_inv hinv dd) h
    · rw [if_neg hb] at h
      exact bodyConsume_ok hm hinv h

theorem readTrace_totalLen {k : Nat} :
    ∀ {m len0 : Int} {st : SState}, 0 ≤ m → bufInv st.buf →
    (totalLen (readTrace k ⟨len0, .connLen m⟩ st) : Int) ≤ m := by
  induction k with
  | zero =>
    intro m len0 st hm _
    simpa [readTrace, totalLen] using hm
  | succ k ih =>
    intro m len0 st hm hinv
    simp only [readTrace]
    cases hbr : bodyRead ⟨len0, .connLen m⟩ st with
    | error e => simpa [totalLen] using hm
    | ok t =>
      obtain ⟨d, r1, st1⟩ := t
      obtain ⟨hr1, hdm, hinv1⟩ := bodyRead_connLen_ok hm hinv hbr
      subst hr1
      have ihl := @ih (m - (d.length : Int)) len0 st1 (by omega) hinv1
      simp only [totalLen, List.map_cons, List.sum_cons] at ihl ⊢
      push_cast at ihl ⊢
      omega

/-- C5: a connection-backed reader with declared length `n ≥ 0` never yields
more than `n` bytes in total across successful reads; whenever buffered bytes
remain it consumes them without touching the connection stream; and a read
that needs bytes after the stream has ended fails with the unexpected-EOF
error instead of returning a short body. -/
theorem readerFromConnLength_spec (n : Int) (hn : 0 ≤ n) (buf : DynBuf)
    (hinv : bufInv buf) (stream : List (List Nat)) :
    (∀ k, (totalLen (readTrace k (readerFromConnLength n) ⟨buf, stream⟩) : Int) ≤ n) ∧
    (∀ (m len0 : Int) (st : SState) (d : List Nat) (r1 : BodyReader) (st1 : SState),
      0 < st.buf.length → bodyRead ⟨len0, .connLen m⟩ st = .ok (d, r1, st1) →
      st1.stream = st.stream) ∧
    (buf.length = 0 → stream = [] → 0 < n →
      bodyRead (readerFromConnLength n) ⟨buf, stream⟩ = .error "Unexpected EOF") := by
  refine ⟨?_, ?_, ?_⟩
  · intro k
    exact readTrace_totalLen hn hinv
  · intro m len0 st d r1 st1 hb h
    simp only [bodyRead] at h
    split at h
    · simp only [Except.ok.injEq, Prod.mk.injEq] at h
      rw [← h.2.2]
    · rw [if_neg (by omega)] at h
      simp only [bodyConsume, Except.ok.injEq, Prod.mk.injEq] at h
      rw [← h.2.2]
  · intro hb hs hn0
    simp only [bodyRead, readerFromConnLength]
    rw [if_neg (by omega), if_pos hb, hs]
    simp [soReadS]

theorem readerFromConnLength_spec_witness :
    (totalLen (readTrace 3 (readerFromConnLength 2) ⟨emptyBuf, [[5, 6, 7]]⟩) : Int) ≤ 2 :=
  (readerFromConnLength_spec 2 (by decide) emptyBuf emptyBuf_inv [[5, 6, 7]]).1 3

/-! ### C7: an HTTP/1.0 request is served exactly once -/

/-- C7: when the framer extracts a request negotiating version `1.0`, the
serve loop performs exactly one handler dispatch and one response write and
then returns — independently of the remaining fuel, of any further complete
requests already in the buffer, and of anything still arriving on the
stream (the right-hand side contains no recursive call, no drain, and no
second extraction). -/
theorem serveLoop_http10 (fuel : Nat) (st : SState) (msg : HTTPReq) (buf1 : DynBuf)
    (hcut : cutMessage st.buf = .ok (some msg, buf1))
    (hver : msg.version = strBytes "1.0") :
    serveLoop (fuel + 1) st =
      (match readerFromReq msg with
      | .error e => .error (.http e)
      | .ok reqBody =>
        match writeHTTPResp fuel ⟨buf1, st.stream⟩ (handleReq msg reqBody) with
        | .error e => .error (.other e)
        | .ok (ws, st2, _) => .ok (ws, st2)) := by
  simp only [serveLoop, hcut]
  split
  · rfl
  · split
    · rfl
    · simp [hver]

theorem serveLoop_http10_witness :
    serveLoop 4 st10 =
      (match readerFromReq ⟨strBytes "GET", strBytes "/", strBytes "1.0", []⟩ with
      | .error e => .error (.http e)
      | .ok reqBody =>
        match writeHTTPResp 3 ⟨⟨req10bytes ++ req10bytes, 18⟩, st10.stream⟩
            (handleReq ⟨strBytes "GET", strBytes "/", strBytes "1.0", []⟩ reqBody) with
        | .error e => .error (.other e)
        | .ok (ws, st2, _) => .ok (ws, st2)) :=
  serveLoop_http10 3 st10 ⟨strBytes "GET", strBytes "/", strBytes "1.0", []⟩
    ⟨req10bytes ++ req10bytes, 18⟩ rfl rfl

/-! ### C1: chunk-boundary independence of the framer -/

theorem splitLines_cons_noCR {x : Nat} {xs : List Nat} (hx : x ≠ 13) :
    splitLines (x :: xs) = consHead x (splitLines xs) := by
  cases xs with
  | nil => simp [splitLines, consHead]
  | cons y rest =>
    simp only [splitLines]
    rw [if_neg (by intro hh; exact hx hh.1)]

theorem splitLines_append_noCR {Y r : List Nat} {h0 : List Nat} {t : List (List Nat)}
    (h : ∀ b ∈ Y, b ≠ 13) (hr : splitLines r = h0 :: t) :
    splitLines (Y ++ r) = (Y ++ h0) :: t := by
  induction Y with
  | nil => simpa using hr
  | cons x xs ih =>
    have hx : x ≠ 13 := h x (List.mem_cons_self x xs)
    rw [List.cons_append, splitLines_cons_noCR hx,
      ih (fun b hb => h b (List.mem_cons_of_mem x hb))]
    simp [consHead]

theorem splitByte_cons_sep (sep : Nat) (xs : List Nat) :
    splitByte sep (sep :: xs) = [] :: splitByte sep xs := by
  simp [splitByte]

theorem splitByte_cons_nosep {sep x : Nat} {xs : List Nat} (hx : x ≠ sep) :
    splitByte sep (x :: xs) = consHead x (splitByte sep xs) := by
  simp [splitByte, hx]

theorem splitByte_append_nosep {sep : Nat} {X r : List Nat} {h0 : List Nat}
    {t : List (List Nat)} (h : ∀ b ∈ X, b ≠ sep) (hr : splitByte sep r = h0 :: t) :
    splitByte sep (X ++ r) = (X ++ h0) :: t := by
  induction X with
  | nil => simpa using hr
  | cons x xs ih =>
    rw [List.cons_append, splitByte_cons_nosep (h x (List.mem_cons_self x xs)),
      ih (fun b hb => h b (List.mem_cons_of_mem x hb))]
    simp [consHead]

theorem cex_noCR :
    ∀ b ∈ strBytes "GET /" ++ List.replicate 8175 97 ++ strBytes " HTTP/1.1", b ≠ 13 := by
  intro b hb
  rcases List.mem_append.mp hb with hb | hb
  · rcases List.mem_append.mp hb with hb | hb
    · exact (show ∀ b ∈ strBytes "GET /", b ≠ 13 from by decide) b hb
    · have := List.eq_of_mem_replicate hb
      omega
  · exact (show ∀ b ∈ strBytes " HTTP/1.1", b ≠ 13 from by decide) b hb

theorem cexY_length :
    (strBytes "GET /" ++ List.replicate 8175 97 ++ strBytes " HTTP/1.1").length = 8189 := by
  rw [List.length_append, List.length_append,
    show (strBytes "GET /").length = 5 from by decide, List.length_replicate,
    show (strBytes " HTTP/1.1").length = 9 from by decide]

theorem cexData_length : cexData.length = 8193 := by
  unfold cexData
  rw [List.length_append, cexY_length]
  rfl

theorem cexData_findCRLF2 : findCRLF2 cexData = some 8189 := by
  unfold cexData
  rw [findCRLF2_append cex_noCR, show findCRLF2 [13, 10, 13, 10] = some 0 from by decide,
    Option.map_some', cexY_length]

theorem gen_splitByte_three (R : List Nat) (hR : ∀ b ∈ R, b ≠ 32) :
    splitByte 32 (strBytes "GET /" ++ R ++ strBytes " HTTP/1.1") =
      [strBytes "GET", 47 :: R, strBytes "HTTP/1.1"] := by
  have h1 : splitByte 32 (strBytes "HTTP/1.1") = [strBytes "HTTP/1.1"] := by decide
  have h2 : splitByte 32 (32 :: strBytes "HTTP/1.1") = [] :: [strBytes "HTTP/1.1"] := by
    rw [splitByte_cons_sep, h1]
  have hno47 : ∀ b ∈ 47 :: R, b ≠ 32 := by
    intro b hb
    rcases List.mem_cons.mp hb with hb | hb
    · omega
    · exact hR b hb
  have h3 : splitByte 32 ((47 :: R) ++ (32 :: strBytes "HTTP/1.1")) =
      (47 :: R) :: [strBytes "HTTP/1.1"] := by
    have := splitByte_append_nosep hno47 h2
    rwa [List.append_nil] at this
  have h4 : splitByte 32 (32 :: ((47 :: R) ++ (32 :: strBytes "HTTP/1.1"))) =
      [] :: ((47 :: R) :: [strBytes "HTTP/1.1"]) := by
    rw [splitByte_cons_sep, h3]
  have hY : strBytes "GET /" ++ R ++ strBytes " HTTP/1.1" =
      [71, 69, 84] ++ (32 :: ((47 :: R) ++ (32 :: strBytes "HTTP/1.1"))) := by
    rw [show strBytes "GET /" = [71, 69, 84, 32, 47] from by decide,
      show strBytes " HTTP/1.1" = 32 :: strBytes "HTTP/1.1" from by decide]
    simp only [List.cons_append, List.nil_append, List.append_assoc]
  rw [hY]
  have := splitByte_append_nosep (show ∀ b ∈ [71, 69, 84], b ≠ 32 from by decide) h4
  rw [List.append_nil] at this
  rw [this, show ([71, 69, 84] : List Nat) = strBytes "GET" from by decide]

theorem gen_parseRequestLine (R : List Nat) (hR : ∀ b ∈ R, b ≠ 32) :
    parseRequestLine (strBytes "GET /" ++ R ++ strBytes " HTTP/1.1") =
      .ok (strBytes "GET", 47 :: R, strBytes "1.1") := by
  simp only [parseRequestLine, gen_splitByte_three R hR]
  rw [if_pos (show kHTTPSlash.isPrefixOf (strBytes "HTTP/1.1") = true from by decide),
    show (splitByte 47 (strBytes "HTTP/1.1")).getD 1 [] = strBytes "1.1" from by decide,
    if_neg (show ¬ (strBytes "1.1").length = 0 from by decide)]

theorem gen_noCR (R : List Nat) (h13 : ∀ b ∈ R, b ≠ 13) :
    ∀ b ∈ strBytes "GET /" ++ R ++ strBytes " HTTP/1.1", b ≠ 13 := by
  intro b hb
  rcases List.mem_append.mp hb with hb | hb
  · rcases List.mem_append.mp hb with hb | hb
    · exact (show ∀ b ∈ strBytes "GET /", b ≠ 13 from by decide) b hb
    · exact h13 b hb
  · exact (show ∀ b ∈ strBytes " HTTP/1.1", b ≠ 13 from by decide) b hb

theorem gen_parseHTTPReq (R : List Nat) (hR32 : ∀ b ∈ R, b ≠ 32)
    (hR13 : ∀ b ∈ R, b ≠ 13) :
    parseHTTPReq (strBytes "GET /" ++ R ++ strBytes " HTTP/1.1" ++ [13, 10, 13, 10]) =
      .ok ⟨strBytes "GET", 47 :: R, strBytes "1.1", []⟩ := by
  have hsl : splitLines (strBytes "GET /" ++ R ++ strBytes " HTTP/1.1" ++ [13, 10, 13, 10]) =
      [strBytes "GET /" ++ R ++ strBytes " HTTP/1.1", [], []] := by
    rw [splitLines_append_noCR (gen_noCR R hR13)
      (show splitLines [13, 10, 13, 10] = [] :: [[], []] from by decide)]
    rw [List.append_nil]
  simp only [parseHTTPReq, hsl, List.getD_cons_zero]
  rw [if_neg (by
      rw [List.length_append, List.length_append,
        show (strBytes "GET /").length = 5 from by decide]
      omega),
    gen_parseRequestLine R hR32]
  rfl

theorem cexData_parse : parseHTTPReq cexData = .ok cexReq :=
  gen_parseHTTPReq (List.replicate 8175 97)
    (fun b hb => by have := List.eq_of_mem_replicate hb; omega)
    (fun b hb => by have := List.eq_of_mem_replicate hb; omega)

theorem gen_cutWhole (data : List Nat) (idx : Nat) (msg : HTTPReq)
    (hfind : findCRLF2 data = some idx)
    (htake : data.take (idx + 4) = data)
    (hparse : parseHTTPReq data = .ok msg) :
    cutWhole data = .ok (some msg) := by
  have hc : bufContents (bufPush emptyBuf data) = data := by
    rw [bufPush_contents emptyBuf_inv, emptyBuf_contents, List.nil_append]
  unfold cutWhole
  simp only [cutMessage, hc, hfind, htake, hparse]

theorem cex_cutWhole : cutWhole cexData = .ok (some cexReq) :=
  gen_cutWhole cexData 8189 cexReq cexData_findCRLF2
    (List.take_of_length_le (by rw [cexData_length])) cexData_parse

theorem cexChunk1_length : cexChunk1.length = 8192 := by
  unfold cexChunk1
  rw [List.length_take, cexData_length]
  omega

theorem gen_feed_two (c1 c2 : List Nat)
    (hfnone : findCRLF2 (bufContents (bufPush emptyBuf c1)) = none)
    (hbig : kMaxHeaderLen ≤ (bufPush emptyBuf c1).length) :
    feedChunks [c1, c2] emptyBuf = .error ⟨413, "Header too large"⟩ := by
  simp only [feedChunks, cutMessage, hfnone]
  rw [if_pos hbig]

theorem cex_feedChunks :
    feedChunks [cexChunk1, cexChunk2] emptyBuf = .error ⟨413, "Header too large"⟩ := by
  have hc1 : bufContents (bufPush emptyBuf cexChunk1) = cexData.take 8192 := by
    rw [bufPush_contents emptyBuf_inv, emptyBuf_contents, List.nil_append]
    rfl
  apply gen_feed_two
  · rw [hc1]
    exact findCRLF2_take_of_lt cexData_findCRLF2 (by omega)
  · show kMaxHeaderLen ≤ emptyBuf.length + cexChunk1.length
    rw [cexChunk1_length]
    decide

/-- C1 counterexample: `cexData` is a complete, parseable header block (8193
bytes, terminator at index 8189), and `[cexChunk1, cexChunk2]` is a split of
it into two non-empty chunks; fed whole, the framer parses the request, but
fed incrementally the first 8192-byte chunk trips the maximum-header-size
check and the framer fails with the 413 error instead. -/
theorem chunk_boundary_cex :
    cexChunk1 ++ cexChunk2 = cexData ∧ cexChunk1 ≠ [] ∧ cexChunk2 ≠ [] ∧
    cutWhole cexData = .ok (some cexReq) ∧
    feedChunks [cexChunk1, cexChunk2] emptyBuf = .error ⟨413, "Header too large"⟩ := by
  refine ⟨List.take_append_drop 8192 cexData, ?_, ?_, cex_cutWhole, cex_feedChunks⟩
  · intro h
    have := congrArg List.length h
    rw [cexChunk1_length] at this
    exact absurd this (by decide)
  · intro h
    have := congrArg List.length h
    rw [show cexChunk2.length = 1 from by
      unfold cexChunk2; rw [List.length_drop, cexData_length]] at this
    exact absurd this (by decide)

theorem feedChunks_aux (data : List Nat) (idx : Nat)
    (hfind : findCRLF2 data = some idx) (hidx : idx + 4 ≤ kMaxHeaderLen) :
    ∀ (chunks : List (List Nat)) (buf : DynBuf) (pre : List Nat),
      bufInv buf → bufContents buf = pre → pre ++ chunks.flatten = data →
      findCRLF2 pre = none →
      feedChunks chunks buf = cutWhole data := by
  intro chunks
  induction chunks with
  | nil =>
    intro buf pre hinv hcont hjoin hnone
    rw [List.flatten_nil, List.append_nil] at hjoin
    rw [hjoin, hfind] at hnone
    exact absurd hnone (by simp)
  | cons c cs ih =>
    intro buf pre hinv hcont hjoin hnone
    have hpre_len : pre.length = buf.length := by
      rw [← hcont]
      unfold bufContents bufInv at *
      rw [List.length_take]
      omega
    have hinv1 : bufInv (bufPush buf c) := bufPush_inv hinv c
    have hcont1 : bufContents (bufPush buf c) = pre ++ c := by
      rw [bufPush_contents hinv, hcont]
    have hpref : (pre ++ c) ++ cs.flatten = data := by
      rw [List.append_assoc]
      rw [List.flatten_cons] at hjoin
      exact hjoin
    have htake : pre ++ c = data.take (pre ++ c).length := by
      conv_lhs => rw [← List.take_left (pre ++ c) cs.flatten]
      rw [hpref]
    have hpushlen : (bufPush buf c).length = (pre ++ c).length := by
      show buf.length + c.length = (pre ++ c).length
      rw [List.length_append, hpre_len]
    simp only [feedChunks]
    by_cases hL : (pre ++ c).length < idx + 4
    · have hf1 : findCRLF2 (bufContents (bufPush buf c)) = none := by
        rw [hcont1, htake]
        exact findCRLF2_take_of_lt hfind (by omega)
      have hcm : cutMessage (bufPush buf c) = .ok (none, bufPush buf c) := by
        unfold cutMessage
        rw [hf1, if_neg (by omega)]
      rw [hcm]
      exact ih (bufPush buf c) (pre ++ c) hinv1 hcont1 hpref (by
        rw [htake]
        exact findCRLF2_take_of_lt hfind (by omega))
    · push_neg at hL
      have hfsome : findCRLF2 (bufContents (bufPush buf c)) = some idx := by
        rw [hcont1, htake]
        exact findCRLF2_take_of_ge hfind hL
      have htt : (bufContents (bufPush buf c)).take (idx + 4) = data.take (idx + 4) := by
        rw [hcont1, htake, List.take_take, min_eq_left hL]
      have hwc : bufContents (bufPush emptyBuf data) = data := by
        rw [bufPush_contents emptyBuf_inv, emptyBuf_contents, List.nil_append]
      unfold cutWhole
      simp only [cutMessage, hfsome, htt, hwc, hfind]
      cases hp : parseHTTPReq (data.take (idx + 4)) <;> simp [hp]

/-- C1 (amended): for a byte sequence whose first header terminator ends
within the maximum header size, and for every split of it into non-empty
chunks, feeding the chunks one at a time (calling the framer after each
append) produces the same result as appending the whole sequence at once
and calling the framer once. -/
theorem feedChunks_eq_cutWhole (data : List Nat) (idx : Nat)
    (hfind : findCRLF2 data = some idx) (hidx : idx + 4 ≤ kMaxHeaderLen)
    (chunks : List (List Nat)) (hjoin : chunks.flatten = data)
    (_hne : ∀ c ∈ chunks, c ≠ []) :
    feedChunks chunks emptyBuf = cutWhole data :=
  feedChunks_aux data idx hfind hidx chunks emptyBuf [] emptyBuf_inv emptyBuf_contents
    (by simpa using hjoin) (by simp [findCRLF2])

theorem feedChunks_eq_cutWhole_witness :
    feedChunks [(strBytes "GET /x HTTP/1.1\r\n\r\n").take 7,
      (strBytes "GET /x HTTP/1.1\r\n\r\n").drop 7] emptyBuf =
    cutWhole (strBytes "GET /x HTTP/1.1\r\n\r\n") :=
  feedChunks_eq_cutWhole (strBytes "GET /x HTTP/1.1\r\n\r\n") 15 (by decide) (by decide)
    [(strBytes "GET /x HTTP/1.1\r\n\r\n").take 7, (strBytes "GET /x HTTP/1.1\r\n\r\n").drop 7]
    (by decide) (by decide)

end HttpWeb
